import Mathlib

/-!
Shallow embedding of the cache / background-refresh subsystem of the
`rip-scope` VS Code extension (`src/modules/cache.ts`, class `CacheManager`).

Modelling conventions:
* Machine time (`Date.now()`) is passed explicitly as a `Nat` (epoch ms).
* JavaScript `Map`s are modelled as association lists `List (String × α)`
  in which `mset` removes the old binding before inserting, so list length
  agrees with `Map.size` on states built through `mset`.
* The three storage tiers are fields of `CacheState`:
  `memoryCache` (in-process map), `globalState` (VS Code globalState,
  the structured persistent tier) and `files` (the on-disk cache
  directory, filename ↦ parsed content).
* Filesystem reads are modelled by the `FileContent` stored in `files`:
  `corrupt` is a file on which `JSON.parse` throws (the catch path),
  `empty` is a file whose content is falsy (the `if (!fileContent)` path),
  `entry e` is a successfully parsed `CacheEntry` – whose `version` field
  is `Option Int` so that a missing field (`none`) fails the
  `entry.version === 1` test exactly as in JavaScript.
* `HashUtils.generateHash` lives in `src/modules/utils.ts`, which is not
  part of the provided sources; every operation that derives a filename
  is therefore parameterised by an arbitrary `hash : String → String`
  (the spec, §4.1, only requires it to be a deterministic function of
  the key, which the parameterisation models for free).
* Asynchrony: `performBackgroundRefresh` runs synchronously up to its
  first `await`; that synchronous guard-and-mark section is
  `startBackgroundRefresh`, the `finally` handler is
  `finishBackgroundRefresh`, and the work between them is
  `doBackgroundRefresh`, parameterised by the outcome of the external
  search (`none` = any failure: error, unavailable tool or the 30 s
  timeout).  Fallible filesystem writes are modelled by the `writeOk`
  flag feeding the sticky `fileCacheDisabled` circuit breaker.
-/

/-- `ItemType` enum from `src/modules/types.ts` (spec §3, `DirectoryItem.itemType`). -/
inductive ItemType where
  | directory : ItemType
  | workspaceFile : ItemType
deriving DecidableEq, Repr

/-- `DirectoryItem` as consumed by the cache (spec §3). -/
structure DirectoryItem where
  fullPath : String
  label : String
  description : Option String
  itemType : ItemType
deriving DecidableEq, Repr

/-- `CacheEntry` (spec §3): `version : Option Int` models a possibly
missing JSON field; the supported schema version is `some 1`. -/
structure CacheEntry where
  directories : List DirectoryItem
  timestamp : Nat
  searchParams : String
  version : Option Int
deriving DecidableEq, Repr

/-- The fields of `SearchParams` that the cache touches: the three
key-relevant arrays plus `fzfPath`, which background refresh forwards
to the fzf availability check. -/
structure SearchParams where
  searchPath : List String
  excludePatterns : List String
  additionalRipgrepArgs : List String
  fzfPath : Option String
deriving DecidableEq, Repr

/-- Parse result of one on-disk cache file. -/
inductive FileContent where
  | empty : FileContent
  | corrupt : FileContent
  | entry : CacheEntry → FileContent
deriving DecidableEq, Repr

/-- Association-list lookup (JavaScript `Map.get`). -/
def mget {α : Type} : List (String × α) → String → Option α
  | [], _ => none
  | (k', v) :: m, k => if k = k' then some v else mget m k

/-- Remove every binding of a key (helper for `mset`). -/
def mdel {α : Type} (k : String) : List (String × α) → List (String × α)
  | [] => []
  | (k', v) :: m => if k = k' then mdel k m else (k', v) :: mdel k m

/-- Association-list update (JavaScript `Map.set`). -/
def mset {α : Type} (k : String) (v : α) (m : List (String × α)) : List (String × α) :=
  (k, v) :: mdel k m

/-- JSON escaping of a single character, as performed by the JavaScript
`JSON.stringify` on string values: `"` and `\` get a backslash escape,
the five named control characters get their short escapes, the other
control characters below U+0020 get a `\u00xx` escape (lowercase hex),
everything else is emitted verbatim. -/
def escapeChar (c : Char) : List Char :=
  if c = '"' then ['\\', '"']
  else if c = '\\' then ['\\', '\\']
  else if c = '\x08' then ['\\', 'b']
  else if c = '\x0c' then ['\\', 'f']
  else if c = '\n' then ['\\', 'n']
  else if c = '\r' then ['\\', 'r']
  else if c = '\t' then ['\\', 't']
  else if c.toNat < 32 then
    ['\\', 'u', '0', '0', Nat.digitChar (c.toNat / 16), Nat.digitChar (c.toNat % 16)]
  else [c]

/-- `JSON.stringify` of one string value (quotes plus escaped body). -/
def encodeJString (s : String) : List Char :=
  '"' :: (s.data.flatMap escapeChar ++ ['"'])

/-- Comma-separated encodings of the elements of a string array. -/
def encodeElems : List String → List Char
  | [] => []
  | [x] => encodeJString x
  | x :: xs => encodeJString x ++ ',' :: encodeElems xs

/-- `JSON.stringify` of a string array. -/
def encodeArray (xs : List String) : List Char :=
  '[' :: (encodeElems xs ++ [']'])

/-- `CacheManager.getCacheKey` (cache.ts 74–81):
`JSON.stringify({searchPath, excludePatterns, additionalRipgrepArgs})`,
with the object fields in source order. -/
def getCacheKey (p : SearchParams) : String :=
  ⟨"\x7b\"searchPath\":".data ++ encodeArray p.searchPath
    ++ ",\"excludePatterns\":".data ++ encodeArray p.excludePatterns
    ++ ",\"additionalRipgrepArgs\":".data ++ encodeArray p.additionalRipgrepArgs
    ++ ['\x7d']⟩

/-- `CacheManager.getCacheFilePath` (cache.ts 68–73) reduced to the
filename inside the cache directory: `cache_<hash>.json`. -/
def cacheFileName (hash : String → String) (key : String) : String :=
  "cache_" ++ hash key ++ ".json"

/-- The `rip-scope-cache-<hash>` key used for the structured
(globalState) tier (cache.ts 417–418). -/
def globalStateKey (hash : String → String) (key : String) : String :=
  "rip-scope-cache-" ++ hash key

/-- The process state of one `CacheManager` instance together with the
two persistent tiers it talks to. -/
structure CacheState where
  memoryCache : List (String × CacheEntry)
  fileCacheDisabled : Bool
  backgroundRefreshes : List String
  refreshDebounceTimers : List String
  lastRefreshTimes : List (String × Nat)
  gitRepoCache : List (String × Bool)
  gitCacheTimestamp : Nat
  globalState : List (String × CacheEntry)
  files : List (String × FileContent)
deriving DecidableEq, Repr

/-- A freshly constructed `CacheManager`: every ephemeral map empty,
circuit breaker closed, persistent tiers arbitrary (they survive
process restarts). -/
def CacheState.initial (gs : List (String × CacheEntry))
    (fs : List (String × FileContent)) : CacheState :=
  ⟨[], false, [], [], [], [], 0, gs, fs⟩

/-- `CacheManager.getCachedDirectories` (cache.ts 182–223): config
guard, memory tier, then the on-disk file (parse, validate
`version === 1`, repopulate memory).  Returns the result together with
the possibly updated state. -/
def getCachedDirectories (hash : String → String) (enabled : Bool)
    (params : SearchParams) (s : CacheState) :
    Option (List DirectoryItem) × CacheState :=
  if !enabled then (none, s)
  else
    let cacheKey := getCacheKey params
    match mget s.memoryCache cacheKey with
    | some e => (some e.directories, s)
    | none =>
      match mget s.files (cacheFileName hash cacheKey) with
      | some (.entry diskEntry) =>
        if diskEntry.version = some 1 then
          (some diskEntry.directories,
            { s with memoryCache := mset cacheKey diskEntry s.memoryCache })
        else (none, s)
      | _ => (none, s)

/-- `CacheManager.shouldRefreshInBackground` (cache.ts 252–276). -/
def shouldRefreshInBackground (now : Nat) (params : SearchParams)
    (s : CacheState) : Bool :=
  let cacheKey := getCacheKey params
  if cacheKey ∈ s.backgroundRefreshes then false
  else
    let lastRefreshTime := (mget s.lastRefreshTimes cacheKey).getD 0
    if now - lastRefreshTime < 10000 then false else true

/-- `CacheManager.triggerBackgroundRefresh` (cache.ts 281–295): clear
any pending debounce timer for the key and arm a new one; the net
effect on the set of keys holding a timer is insertion. -/
def triggerBackgroundRefresh (params : SearchParams) (s : CacheState) :
    CacheState :=
  let cacheKey := getCacheKey params
  if cacheKey ∈ s.refreshDebounceTimers then s
  else { s with refreshDebounceTimers := cacheKey :: s.refreshDebounceTimers }

/-- The debounce timer for `params` firing (cache.ts 289–292): the
callback removes its own timer entry before calling
`performBackgroundRefresh`. -/
def fireDebounce (params : SearchParams) (s : CacheState) : CacheState :=
  { s with refreshDebounceTimers :=
      s.refreshDebounceTimers.filter (fun k => k != getCacheKey params) }

/-- `CacheManager.getCachedDirectoriesWithRefresh` (cache.ts 229–247):
lookup plus, on a (truthy) hit with the trigger flag and the global
refresh toggle set, a debounced background-refresh trigger guarded by
`shouldRefreshInBackground`. -/
def getCachedDirectoriesWithRefresh (hash : String → String)
    (enabled bgEnabled trigger : Bool) (now : Nat) (params : SearchParams)
    (s : CacheState) : Option (List DirectoryItem) × CacheState :=
  let r := getCachedDirectories hash enabled params s
  match r.1 with
  | some _ =>
    if trigger && bgEnabled then
      if shouldRefreshInBackground now params r.2 then
        (r.1, triggerBackgroundRefresh params r.2)
      else r
    else r
  | none => r

/-- The synchronous head of `CacheManager.performBackgroundRefresh`
(cache.ts 299–318): return early when a refresh for the key is already
in flight, otherwise record the attempt instant and install the
in-flight marker.  The `Bool` reports whether work was started. -/
def startBackgroundRefresh (now : Nat) (params : SearchParams)
    (s : CacheState) : Bool × CacheState :=
  let cacheKey := getCacheKey params
  if cacheKey ∈ s.backgroundRefreshes then (false, s)
  else
    (true,
      { s with
        lastRefreshTimes := mset cacheKey now s.lastRefreshTimes,
        backgroundRefreshes := cacheKey :: s.backgroundRefreshes })

/-- The `finally` handler of `CacheManager.performBackgroundRefresh`
(cache.ts 323–325): drop the in-flight marker, on success and on
failure alike. -/
def finishBackgroundRefresh (key : String) (s : CacheState) : CacheState :=
  { s with backgroundRefreshes := s.backgroundRefreshes.filter (fun k => k != key) }

/-- `CacheManager.setCachedDirectories` (cache.ts 392–479): config
guard; build the version-1 entry; write memory unconditionally; write
globalState only for `directories.length <= 1000`; write the cache
file unless the sticky circuit breaker is open, opening it when the
write fails (`writeOk = false`). -/
def setCachedDirectories (hash : String → String) (enabled writeOk : Bool)
    (now : Nat) (params : SearchParams) (directories : List DirectoryItem)
    (s : CacheState) : CacheState :=
  if !enabled then s
  else
    let cacheKey := getCacheKey params
    let entry : CacheEntry := ⟨directories, now, cacheKey, some 1⟩
    let s1 := { s with memoryCache := mset cacheKey entry s.memoryCache }
    let s2 :=
      if directories.length ≤ 1000 then
        { s1 with globalState := mset (globalStateKey hash cacheKey) entry s1.globalState }
      else s1
    if s2.fileCacheDisabled then s2
    else if writeOk then
      { s2 with files := mset (cacheFileName hash cacheKey) (.entry entry) s2.files }
    else { s2 with fileCacheDisabled := true }

/-- The `try` block of `CacheManager.doBackgroundRefresh`
(cache.ts 331–386): on success the searched directories are stored
under the corrected parameters (validated search paths substituted);
any failure – error, unavailable tool, or the 30 s timeout firing the
cancellation token – surfaces here as `Except.error`. -/
def doBackgroundRefreshBody (hash : String → String)
    (outcome : Option (List DirectoryItem)) (validPaths : List String)
    (enabled writeOk : Bool) (now : Nat) (params : SearchParams)
    (s : CacheState) : Except Unit CacheState :=
  match outcome with
  | none => .error ()
  | some directories =>
    .ok (setCachedDirectories hash enabled writeOk now
          { params with searchPath := validPaths } directories s)

/-- `CacheManager.doBackgroundRefresh` (cache.ts 330–391): the catch
handler swallows every failure (log only), leaving the state as it
was; the function is total, so no error ever reaches the caller. -/
def doBackgroundRefresh (hash : String → String)
    (outcome : Option (List DirectoryItem)) (validPaths : List String)
    (enabled writeOk : Bool) (now : Nat) (params : SearchParams)
    (s : CacheState) : CacheState :=
  match doBackgroundRefreshBody hash outcome validPaths enabled writeOk now params s with
  | .ok s' => s'
  | .error _ => s

/-- `CacheManager.performBackgroundRefresh` (cache.ts 299–326) run to
completion: guard-and-mark, the refresh work, then the `finally`
handler. -/
def performBackgroundRefresh (hash : String → String)
    (outcome : Option (List DirectoryItem)) (validPaths : List String)
    (enabled writeOk : Bool) (now₁ now₂ : Nat) (params : SearchParams)
    (s : CacheState) : CacheState :=
  let r := startBackgroundRefresh now₁ params s
  if r.1 then
    finishBackgroundRefresh (getCacheKey params)
      (doBackgroundRefresh hash outcome validPaths enabled writeOk now₂ params r.2)
  else r.2

/-- `CacheManager.clearCache` (cache.ts 481–510): snapshot the memory
size for the user-facing message, empty memory, delete every
globalState key with the `rip-scope-cache-` tag, delete every `.json`
file in the cache directory. -/
def clearCache (s : CacheState) : Nat × CacheState :=
  (s.memoryCache.length,
    { s with
      memoryCache := [],
      globalState := s.globalState.filter (fun kv => !kv.1.startsWith "rip-scope-cache-"),
      files := s.files.filter (fun kv => !kv.1.endsWith ".json") })

/-- `CacheManager.clearGitCache` (cache.ts 616–619). -/
def clearGitCache (s : CacheState) : CacheState :=
  { s with gitRepoCache := [], gitCacheTimestamp := 0 }

/-- Modelled from the spec: the user-facing cache-clear command
(registered as `rip-scope.clearCache` in the extension entry point,
which is not among the provided sources) — spec §4.4 `clear()`
"delegates to TieredStore.clear, also clears GitRepoCache, and reports
the number of memory entries removed to the caller". -/
def clearCommand (s : CacheState) : Nat × CacheState :=
  let r := clearCache s
  (r.1, clearGitCache r.2)

/-- Whether `cleanupOldCacheFiles` keeps a directory entry of the cache
directory (cache.ts 92–112): non-`.json` files are ignored, an empty
file is skipped (early `return`), an unparsable file is deleted, a
parsed entry is deleted when older than 24 h or of an unsupported
version. -/
def keepFile (now : Nat) (kv : String × FileContent) : Bool :=
  if kv.1.endsWith ".json" then
    match kv.2 with
    | .empty => true
    | .corrupt => false
    | .entry e =>
      if 24 * 60 * 60 * 1000 < now - e.timestamp ∨ e.version ≠ some 1 then false
      else true
  else true

/-- `CacheManager.cleanupOldCacheFiles` (cache.ts 82–116). -/
def cleanupOldCacheFiles (now : Nat) (s : CacheState) : CacheState :=
  { s with files := s.files.filter (keepFile now) }

/-- One globalState key contributing to the preload pass
(cache.ts 143–152). -/
def preloadGlobalStep (m : List (String × CacheEntry))
    (kv : String × CacheEntry) : List (String × CacheEntry) :=
  if kv.1.startsWith "rip-scope-cache-" ∧ kv.2.version = some 1 then
    mset kv.2.searchParams kv.2 m
  else m

/-- One cache-directory file contributing to the preload pass
(cache.ts 153–177). -/
def preloadFileStep (m : List (String × CacheEntry))
    (kv : String × FileContent) : List (String × CacheEntry) :=
  if kv.1.endsWith ".json" then
    match kv.2 with
    | .entry e => if e.version = some 1 then mset e.searchParams e m else m
    | _ => m
  else m

/-- `CacheManager.doPreloadCache` (cache.ts 133–181): load the
structured tier, then the file tier (so files win for a shared key),
into memory; only version-1 entries are taken. -/
def preloadCache (enabled : Bool) (s : CacheState) : CacheState :=
  if !enabled then s
  else
    let m1 := s.globalState.foldl preloadGlobalStep s.memoryCache
    let m2 := s.files.foldl preloadFileStep m1
    { s with memoryCache := m2 }

/-- `CacheManager.isGitRepository` (cache.ts 559–584).  `check`
models `FileUtils.existsSync` on the `.git` entry under the path:
`some b` is a normal answer, `none` a thrown filesystem error (the
catch path caches `false`).  Returns
(result, whether the filesystem was consulted, new state). -/
def isGitRepository (check : String → Option Bool) (now : Nat)
    (dirPath : String) (s : CacheState) : Bool × Bool × CacheState :=
  let s1 :=
    if 5 * 60 * 1000 < now - s.gitCacheTimestamp then
      { s with gitRepoCache := [], gitCacheTimestamp := now }
    else s
  match mget s1.gitRepoCache dirPath with
  | some b => (b, false, s1)
  | none =>
    match check dirPath with
    | some b => (b, true, { s1 with gitRepoCache := mset dirPath b s1.gitRepoCache })
    | none => (false, true, { s1 with gitRepoCache := mset dirPath false s1.gitRepoCache })

/-- `CacheManager.dispose` (cache.ts 543–554): cancel and drop every
pending debounce timer; in-flight refreshes are left to finish. -/
def dispose (s : CacheState) : CacheState :=
  { s with refreshDebounceTimers := [] }

/-- Every state a `CacheManager` can reach: a fresh instance over
arbitrary persisted tiers, closed under all of its operations (each
step may use its own clock value, configuration reading, hash function
and external outcomes). -/
inductive Reach : CacheState → Prop where
  | init (gs : List (String × CacheEntry)) (fs : List (String × FileContent)) :
      Reach (CacheState.initial gs fs)
  | get (hash : String → String) (enabled : Bool) (params : SearchParams)
      {s : CacheState} : Reach s → Reach (getCachedDirectories hash enabled params s).2
  | getWith (hash : String → String) (enabled bgEnabled trigger : Bool) (now : Nat)
      (params : SearchParams) {s : CacheState} : Reach s →
      Reach (getCachedDirectoriesWithRefresh hash enabled bgEnabled trigger now params s).2
  | set (hash : String → String) (enabled writeOk : Bool) (now : Nat)
      (params : SearchParams) (directories : List DirectoryItem) {s : CacheState} :
      Reach s → Reach (setCachedDirectories hash enabled writeOk now params directories s)
  | trigger (params : SearchParams) {s : CacheState} :
      Reach s → Reach (triggerBackgroundRefresh params s)
  | fire (params : SearchParams) {s : CacheState} :
      Reach s → Reach (fireDebounce params s)
  | start (now : Nat) (params : SearchParams) {s : CacheState} :
      Reach s → Reach (startBackgroundRefresh now params s).2
  | finish (key : String) {s : CacheState} :
      Reach s → Reach (finishBackgroundRefresh key s)
  | doRefresh (hash : String → String) (outcome : Option (List DirectoryItem))
      (validPaths : List String) (enabled writeOk : Bool) (now : Nat)
      (params : SearchParams) {s : CacheState} : Reach s →
      Reach (doBackgroundRefresh hash outcome validPaths enabled writeOk now params s)
  | clear {s : CacheState} : Reach s → Reach (clearCache s).2
  | cleargit {s : CacheState} : Reach s → Reach (clearGitCache s)
  | cleanup (now : Nat) {s : CacheState} : Reach s → Reach (cleanupOldCacheFiles now s)
  | preload (enabled : Bool) {s : CacheState} : Reach s → Reach (preloadCache enabled s)
  | git (check : String → Option Bool) (now : Nat) (dirPath : String) {s : CacheState} :
      Reach s → Reach (isGitRepository check now dirPath s).2.2
  | disposeStep {s : CacheState} : Reach s → Reach (dispose s)

theorem mget_mset_self {α : Type} (k : String) (v : α) (m : List (String × α)) :
    mget (mset k v m) k = some v := by
  simp [mset, mget]

theorem mget_mdel_ne {α : Type} {k k' : String} (h : k' ≠ k) (m : List (String × α)) :
    mget (mdel k m) k' = mget m k' := by
  induction m with
  | nil => rfl
  | cons kv m ih =>
    obtain ⟨a, b⟩ := kv
    by_cases hk : k = a
    · subst hk
      simp [mdel, mget, h, ih]
    · simp only [mdel, if_neg hk]
      by_cases hk' : k' = a
      · subst hk'; simp [mget]
      · simp [mget, hk', ih]

theorem mget_mset_ne {α : Type} {k k' : String} (h : k' ≠ k) (v : α)
    (m : List (String × α)) : mget (mset k v m) k' = mget m k' := by
  simp [mset, mget, h, mget_mdel_ne h]

theorem mget_mem {α : Type} {m : List (String × α)} {k : String} {v : α}
    (h : mget m k = some v) : (k, v) ∈ m := by
  induction m with
  | nil => simp [mget] at h
  | cons kv m ih =>
    obtain ⟨a, b⟩ := kv
    by_cases hk : k = a
    · subst hk
      simp [mget] at h
      simp [h]
    · simp [mget, hk] at h
      exact List.mem_cons_of_mem _ (ih h)

theorem mdel_subset {α : Type} {m : List (String × α)} {k : String}
    {x : String × α} (h : x ∈ mdel k m) : x ∈ m := by
  induction m with
  | nil => simp [mdel] at h
  | cons kv m ih =>
    obtain ⟨a, b⟩ := kv
    by_cases hk : k = a
    · simp only [mdel, if_pos hk] at h
      exact List.mem_cons_of_mem _ (ih h)
    · simp only [mdel, if_neg hk, List.mem_cons] at h
      rcases h with h | h
      · simp [h]
      · exact List.mem_cons_of_mem _ (ih h)

theorem mem_mset {α : Type} {m : List (String × α)} {k : String} {v : α}
    {x : String × α} (h : x ∈ mset k v m) : x = (k, v) ∨ x ∈ m := by
  simp only [mset, List.mem_cons] at h
  rcases h with h | h
  · exact Or.inl h
  · exact Or.inr (mdel_subset h)

/-- Decoding value of a lowercase hex digit (inverse of `Nat.digitChar`
on the range the encoder uses). -/
def hexVal (c : Char) : Nat :=
  if 97 ≤ c.toNat then c.toNat - 87 else c.toNat - 48

theorem hexVal_digitChar : ∀ n < 16, hexVal (Nat.digitChar n) = n := by decide

/-- Inverse of the escaped body of a JSON string literal: consumes
characters up to the closing quote, undoing `escapeChar`, and returns
the decoded characters together with the input remaining after the
closing quote. -/
def decodeStringBody : List Char → Option (List Char × List Char)
  | [] => none
  | c :: rest =>
    if c = '"' then some ([], rest)
    else if c = '\\' then
      match rest with
      | [] => none
      | e :: r =>
        if e = '"' then (decodeStringBody r).map (fun p => ('"' :: p.1, p.2))
        else if e = '\\' then (decodeStringBody r).map (fun p => ('\\' :: p.1, p.2))
        else if e = 'b' then (decodeStringBody r).map (fun p => ('\x08' :: p.1, p.2))
        else if e = 'f' then (decodeStringBody r).map (fun p => ('\x0c' :: p.1, p.2))
        else if e = 'n' then (decodeStringBody r).map (fun p => ('\n' :: p.1, p.2))
        else if e = 'r' then (decodeStringBody r).map (fun p => ('\r' :: p.1, p.2))
        else if e = 't' then (decodeStringBody r).map (fun p => ('\t' :: p.1, p.2))
        else if e = 'u' then
          match r with
          | h1 :: h2 :: h3 :: h4 :: r' =>
            (decodeStringBody r').map (fun p =>
              (Char.ofNat (hexVal h1 * 4096 + hexVal h2 * 256 + hexVal h3 * 16 + hexVal h4)
                :: p.1, p.2))
          | _ => none
        else none
    else (decodeStringBody rest).map (fun p => (c :: p.1, p.2))
termination_by l => l.length

theorem hexVal_zero : hexVal '0' = 0 := by decide

theorem decodeStringBody_escapeChar (c : Char) (rest : List Char) :
    decodeStringBody (escapeChar c ++ rest) =
      (decodeStringBody rest).map (fun p => (c :: p.1, p.2)) := by
  unfold escapeChar
  split_ifs with h1 h2 h3 h4 h5 h6 h7 h8
  · subst h1; rw [decodeStringBody.eq_def]; simp
  · subst h2; rw [decodeStringBody.eq_def]; simp
  · subst h3; rw [decodeStringBody.eq_def]; simp
  · subst h4; rw [decodeStringBody.eq_def]; simp
  · subst h5; rw [decodeStringBody.eq_def]; simp
  · subst h6; rw [decodeStringBody.eq_def]; simp
  · subst h7; rw [decodeStringBody.eq_def]; simp
  · have hd1 : hexVal (Nat.digitChar (c.toNat / 16)) = c.toNat / 16 :=
      hexVal_digitChar _ (by omega)
    have hd2 : hexVal (Nat.digitChar (c.toNat % 16)) = c.toNat % 16 :=
      hexVal_digitChar _ (by omega)
    have hsum : hexVal '0' * 4096 + hexVal '0' * 256 +
        hexVal (Nat.digitChar (c.toNat / 16)) * 16 +
        hexVal (Nat.digitChar (c.toNat % 16)) = c.toNat := by
      rw [hd1, hd2, hexVal_zero]; omega
    rw [decodeStringBody.eq_def]
    simp [hsum, Char.ofNat_toNat]
  · rw [decodeStringBody.eq_def]
    simp [h1, h2]

theorem decodeStringBody_encode (s : List Char) (rest : List Char) :
    decodeStringBody (s.flatMap escapeChar ++ ('"' :: rest)) = some (s, rest) := by
  induction s with
  | nil =>
    rw [List.flatMap_nil, List.nil_append, decodeStringBody.eq_def]
    simp
  | cons c t ih =>
    rw [List.flatMap_cons, List.append_assoc, decodeStringBody_escapeChar, ih]
    rfl

/-- Inverse of `encodeJString`: consumes one JSON string literal and
returns the decoded body and the input after it. -/
def decodeJString (l : List Char) : Option (List Char × List Char) :=
  match l with
  | '"' :: rest => decodeStringBody rest
  | _ => none

theorem decodeJString_encode (s : String) (rest : List Char) :
    decodeJString (encodeJString s ++ rest) = some (s.data, rest) := by
  show decodeJString ('"' :: (s.data.flatMap escapeChar ++ ['"']) ++ rest) = _
  rw [List.cons_append, List.append_assoc]
  show decodeStringBody (s.data.flatMap escapeChar ++ ('"' :: rest)) = _
  exact decodeStringBody_encode s.data rest

/-- Inverse of `encodeElems`: consumes the comma-separated elements of
a non-empty JSON string array up to (and including) the closing `]`.
The fuel bounds the number of elements. -/
def decodeElems : Nat → List Char → Option (List String × List Char)
  | 0, _ => none
  | fuel + 1, l =>
    match decodeJString l with
    | none => none
    | some (sdata, rest) =>
      match rest with
      | ']' :: r => some ([⟨sdata⟩], r)
      | ',' :: r => (decodeElems fuel r).map (fun p => ((⟨sdata⟩ : String) :: p.1, p.2))
      | _ => none

/-- Inverse of `encodeArray`. -/
def decodeArray (fuel : Nat) (l : List Char) : Option (List String × List Char) :=
  match l with
  | '[' :: rest =>
    match rest with
    | ']' :: r => some ([], r)
    | _ => decodeElems fuel rest
  | _ => none

theorem decodeElems_encode (xs : List String) (rest : List Char) :
    ∀ fuel, xs.length ≤ fuel → xs ≠ [] →
      decodeElems fuel (encodeElems xs ++ (']' :: rest)) = some (xs, rest) := by
  induction xs with
  | nil => intro fuel _ hne; exact absurd rfl hne
  | cons x t ih =>
    intro fuel hlen _
    cases fuel with
    | zero => simp at hlen
    | succ f =>
      cases t with
      | nil =>
        show decodeElems (f + 1) (encodeJString x ++ (']' :: rest)) = _
        rw [decodeElems, decodeJString_encode]
        rfl
      | cons y t' =>
        show decodeElems (f + 1)
          ((encodeJString x ++ ',' :: encodeElems (y :: t')) ++ (']' :: rest)) = _
        rw [List.append_assoc, List.cons_append, decodeElems, decodeJString_encode]
        have hlen' : (y :: t').length ≤ f := by
          simp only [List.length_cons] at hlen ⊢; omega
        simp [ih f hlen' (by simp)]

theorem encodeElems_cons_head (x : String) (t : List String) :
    ∃ z, encodeElems (x :: t) = '"' :: z := by
  cases t with
  | nil => exact ⟨_, rfl⟩
  | cons y t' => exact ⟨_, rfl⟩

theorem decodeArray_encode (xs : List String) (rest : List Char) (fuel : Nat)
    (hlen : xs.length ≤ fuel) :
    decodeArray fuel (encodeArray xs ++ rest) = some (xs, rest) := by
  cases xs with
  | nil => rfl
  | cons x t =>
    obtain ⟨z, hz⟩ := encodeElems_cons_head x t
    have harr : encodeArray (x :: t) ++ rest =
        '[' :: (encodeElems (x :: t) ++ (']' :: rest)) := by
      show '[' :: (encodeElems (x :: t) ++ [']']) ++ rest = _
      simp [List.append_assoc]
    have hred : decodeArray fuel ('[' :: (encodeElems (x :: t) ++ (']' :: rest))) =
        decodeElems fuel (encodeElems (x :: t) ++ (']' :: rest)) := by
      rw [hz]; rfl
    rw [harr, hred]
    exact decodeElems_encode (x :: t) rest fuel hlen (by simp)

/-- Consume an expected literal sequence, returning the remainder. -/
def dropLit : List Char → List Char → Option (List Char)
  | [], l => some l
  | _ :: _, [] => none
  | p :: ps, c :: cs => if c = p then dropLit ps cs else none

theorem dropLit_append (pre rest : List Char) :
    dropLit pre (pre ++ rest) = some rest := by
  induction pre with
  | nil => rfl
  | cons p ps ih => simp [dropLit, ih]

/-- Inverse of `getCacheKey`: recovers the three parameter arrays from
the canonical key string. -/
def decodeKey (fuel : Nat) (l : List Char) :
    Option ((List String × List String × List String) × List Char) :=
  match dropLit "\x7b\"searchPath\":".data l with
  | none => none
  | some l1 =>
    match decodeArray fuel l1 with
    | none => none
    | some (sp, l2) =>
      match dropLit ",\"excludePatterns\":".data l2 with
      | none => none
      | some l3 =>
        match decodeArray fuel l3 with
        | none => none
        | some (ex, l4) =>
          match dropLit ",\"additionalRipgrepArgs\":".data l4 with
          | none => none
          | some l5 =>
            match decodeArray fuel l5 with
            | none => none
            | some (ar, l6) => some ((sp, ex, ar), l6)

theorem decodeKey_getCacheKey (p : SearchParams) (fuel : Nat)
    (h1 : p.searchPath.length ≤ fuel) (h2 : p.excludePatterns.length ≤ fuel)
    (h3 : p.additionalRipgrepArgs.length ≤ fuel) :
    decodeKey fuel (getCacheKey p).data =
      some ((p.searchPath, p.excludePatterns, p.additionalRipgrepArgs), ['\x7d']) := by
  have hdata : (getCacheKey p).data =
      "\x7b\"searchPath\":".data ++ (encodeArray p.searchPath
        ++ (",\"excludePatterns\":".data ++ (encodeArray p.excludePatterns
        ++ (",\"additionalRipgrepArgs\":".data
        ++ (encodeArray p.additionalRipgrepArgs ++ ['\x7d']))))) := by
    show "\x7b\"searchPath\":".data ++ encodeArray p.searchPath
      ++ ",\"excludePatterns\":".data ++ encodeArray p.excludePatterns
      ++ ",\"additionalRipgrepArgs\":".data ++ encodeArray p.additionalRipgrepArgs
      ++ ['\x7d'] = _
    simp [List.append_assoc]
  simp only [decodeKey, hdata, dropLit_append, decodeArray_encode _ _ _ h1,
    dropLit_append, decodeArray_encode _ _ _ h2, dropLit_append,
    decodeArray_encode _ _ _ h3]

theorem getCacheKey_fields_eq {p1 p2 : SearchParams}
    (h : getCacheKey p1 = getCacheKey p2) :
    p1.searchPath = p2.searchPath ∧ p1.excludePatterns = p2.excludePatterns ∧
      p1.additionalRipgrepArgs = p2.additionalRipgrepArgs := by
  have hdata : (getCacheKey p1).data = (getCacheKey p2).data := by rw [h]
  set fuel := p1.searchPath.length + p1.excludePatterns.length +
    p1.additionalRipgrepArgs.length + p2.searchPath.length +
    p2.excludePatterns.length + p2.additionalRipgrepArgs.length with hf
  have d1 := decodeKey_getCacheKey p1 fuel (by omega) (by omega) (by omega)
  have d2 := decodeKey_getCacheKey p2 fuel (by omega) (by omega) (by omega)
  rw [hdata, d2] at d1
  injection d1 with d1
  injection d1 with d1 _
  injection d1 with e1 d1
  injection d1 with e2 e3
  exact ⟨e1.symm, e2.symm, e3.symm⟩

theorem getCachedDirectories_snd (hash : String → String) (enabled : Bool)
    (params : SearchParams) (s : CacheState) :
    ∃ m, (getCachedDirectories hash enabled params s).2 = { s with memoryCache := m } := by
  simp only [getCachedDirectories]
  repeat' split
  all_goals exact ⟨_, rfl⟩

theorem setCachedDirectories_shape (hash : String → String) (enabled writeOk : Bool)
    (now : Nat) (params : SearchParams) (directories : List DirectoryItem)
    (s : CacheState) :
    ∃ m g f d, setCachedDirectories hash enabled writeOk now params directories s =
      { s with memoryCache := m, globalState := g, files := f, fileCacheDisabled := d } := by
  simp only [setCachedDirectories]
  repeat' split
  all_goals exact ⟨_, _, _, _, rfl⟩

theorem getCachedDirectoriesWithRefresh_snd (hash : String → String)
    (enabled bgEnabled trigger : Bool) (now : Nat) (params : SearchParams)
    (s : CacheState) :
    ∃ m t, (getCachedDirectoriesWithRefresh hash enabled bgEnabled trigger now params s).2 =
      { s with memoryCache := m, refreshDebounceTimers := t } := by
  obtain ⟨m, hm⟩ := getCachedDirectories_snd hash enabled params s
  simp only [getCachedDirectoriesWithRefresh, triggerBackgroundRefresh]
  repeat' split
  all_goals rw [hm]
  all_goals exact ⟨_, _, rfl⟩

theorem doBackgroundRefresh_shape (hash : String → String)
    (outcome : Option (List DirectoryItem)) (validPaths : List String)
    (enabled writeOk : Bool) (now : Nat) (params : SearchParams) (s : CacheState) :
    ∃ m g f d, doBackgroundRefresh hash outcome validPaths enabled writeOk now params s =
      { s with memoryCache := m, globalState := g, files := f, fileCacheDisabled := d } := by
  unfold doBackgroundRefresh doBackgroundRefreshBody
  cases outcome with
  | none => exact ⟨_, _, _, _, rfl⟩
  | some directories => exact setCachedDirectories_shape hash enabled writeOk now _ directories s

theorem isGitRepository_snd (check : String → Option Bool) (now : Nat)
    (dirPath : String) (s : CacheState) :
    ∃ g t, (isGitRepository check now dirPath s).2.2 =
      { s with gitRepoCache := g, gitCacheTimestamp := t } := by
  simp only [isGitRepository]
  repeat' split
  all_goals exact ⟨_, _, rfl⟩

theorem preloadCache_snd (enabled : Bool) (s : CacheState) :
    ∃ m, preloadCache enabled s = { s with memoryCache := m } := by
  simp only [preloadCache]
  split
  · exact ⟨_, rfl⟩
  · exact ⟨_, rfl⟩

/-- Invariant: the in-flight set never holds two markers for one key
(spec §3 invariant 1). -/
theorem reach_nodup {s : CacheState} (h : Reach s) : s.backgroundRefreshes.Nodup := by
  induction h with
  | init gs fs => exact List.nodup_nil
  | get hash enabled params _ ih =>
    obtain ⟨m, hm⟩ := getCachedDirectories_snd hash enabled params _
    rw [hm]; exact ih
  | getWith hash enabled bgEnabled trigger now params _ ih =>
    obtain ⟨m, t, hm⟩ := getCachedDirectoriesWithRefresh_snd hash enabled bgEnabled trigger now params _
    rw [hm]; exact ih
  | set hash enabled writeOk now params directories _ ih =>
    obtain ⟨m, g, f, d, hm⟩ := setCachedDirectories_shape hash enabled writeOk now params directories _
    rw [hm]; exact ih
  | trigger params _ ih =>
    simp only [triggerBackgroundRefresh]
    split
    · exact ih
    · exact ih
  | fire params _ ih => exact ih
  | start now params _ ih =>
    simp only [startBackgroundRefresh]
    split
    · exact ih
    · exact List.Nodup.cons (by assumption) ih
  | finish key _ ih => exact List.Nodup.filter _ ih
  | doRefresh hash outcome validPaths enabled writeOk now params _ ih =>
    obtain ⟨m, g, f, d, hm⟩ := doBackgroundRefresh_shape hash outcome validPaths enabled writeOk now params _
    rw [hm]; exact ih
  | clear _ ih => exact ih
  | cleargit _ ih => exact ih
  | cleanup now _ ih => exact ih
  | preload enabled _ ih =>
    obtain ⟨m, hm⟩ := preloadCache_snd enabled _
    rw [hm]; exact ih
  | git check now dirPath _ ih =>
    obtain ⟨g, t, hm⟩ := isGitRepository_snd check now dirPath _
    rw [hm]; exact ih
  | disposeStep _ ih => exact ih

theorem getCachedDirectories_memory (hash : String → String) (enabled : Bool)
    (params : SearchParams) (s : CacheState) (kv : String × CacheEntry)
    (h : kv ∈ (getCachedDirectories hash enabled params s).2.memoryCache) :
    kv ∈ s.memoryCache ∨ kv.2.version = some 1 := by
  simp only [getCachedDirectories] at h
  split at h
  · exact Or.inl h
  · split at h
    · exact Or.inl h
    · split at h
      · split at h
        · rename_i hv
          rcases mem_mset h with heq | hmem
          · right; rw [heq]; exact hv
          · exact Or.inl hmem
        · exact Or.inl h
      · exact Or.inl h

theorem setCachedDirectories_memory (hash : String → String) (enabled writeOk : Bool)
    (now : Nat) (params : SearchParams) (directories : List DirectoryItem)
    (s : CacheState) (kv : String × CacheEntry)
    (h : kv ∈ (setCachedDirectories hash enabled writeOk now params directories s).memoryCache) :
    kv ∈ s.memoryCache ∨ kv.2.version = some 1 := by
  simp only [setCachedDirectories] at h
  repeat' split at h
  all_goals
    first
      | exact Or.inl h
      | (rcases mem_mset h with heq | hmem
         · right; rw [heq]
         · exact Or.inl hmem)

theorem getCachedDirectoriesWithRefresh_memory (hash : String → String)
    (enabled bgEnabled trigger : Bool) (now : Nat) (params : SearchParams)
    (s : CacheState) :
    (getCachedDirectoriesWithRefresh hash enabled bgEnabled trigger now params s).2.memoryCache =
      (getCachedDirectories hash enabled params s).2.memoryCache := by
  simp only [getCachedDirectoriesWithRefresh, triggerBackgroundRefresh]
  repeat' split
  all_goals rfl

theorem triggerBackgroundRefresh_memory (params : SearchParams) (s : CacheState) :
    (triggerBackgroundRefresh params s).memoryCache = s.memoryCache := by
  simp only [triggerBackgroundRefresh]
  split <;> rfl

theorem startBackgroundRefresh_memory (now : Nat) (params : SearchParams)
    (s : CacheState) :
    (startBackgroundRefresh now params s).2.memoryCache = s.memoryCache := by
  simp only [startBackgroundRefresh]
  split <;> rfl

theorem preloadGlobalStep_memory (m : List (String × CacheEntry))
    (kv0 : String × CacheEntry) (kv : String × CacheEntry)
    (h : kv ∈ preloadGlobalStep m kv0) : kv ∈ m ∨ kv.2.version = some 1 := by
  simp only [preloadGlobalStep] at h
  split at h
  · rename_i hc
    rcases mem_mset h with heq | hmem
    · right; rw [heq]; exact hc.2
    · exact Or.inl hmem
  · exact Or.inl h

theorem preloadFileStep_memory (m : List (String × CacheEntry))
    (kv0 : String × FileContent) (kv : String × CacheEntry)
    (h : kv ∈ preloadFileStep m kv0) : kv ∈ m ∨ kv.2.version = some 1 := by
  simp only [preloadFileStep] at h
  repeat' split at h
  all_goals
    first
      | exact Or.inl h
      | (rename_i hv
         rcases mem_mset h with heq | hmem
         · right; rw [heq]; exact hv
         · exact Or.inl hmem)

theorem foldl_memory_version {β : Type}
    (f : List (String × CacheEntry) → β → List (String × CacheEntry))
    (hf : ∀ m b kv, kv ∈ f m b → kv ∈ m ∨ kv.2.version = some 1) :
    ∀ (l : List β) (m : List (String × CacheEntry)) (kv : String × CacheEntry),
      kv ∈ l.foldl f m → kv ∈ m ∨ kv.2.version = some 1 := by
  intro l
  induction l with
  | nil => intro m kv h; exact Or.inl h
  | cons b t ih =>
    intro m kv h
    rcases ih (f m b) kv h with hm | hv
    · exact hf m b kv hm
    · exact Or.inr hv

/-- Invariant: every entry the memory tier ever holds carries
`version == 1` (spec §3 invariant 2, memory side): the only writers
are `set` (which stamps version 1) and the disk / preload loaders
(which validate `version === 1` before inserting). -/
theorem reach_memory_version {s : CacheState} (h : Reach s) :
    ∀ kv ∈ s.memoryCache, kv.2.version = some 1 := by
  induction h with
  | init gs fs => intro kv hkv; simp [CacheState.initial] at hkv
  | get hash enabled params _ ih =>
    intro kv hkv
    rcases getCachedDirectories_memory hash enabled params _ kv hkv with h' | h'
    · exact ih kv h'
    · exact h'
  | getWith hash enabled bgEnabled trigger now params _ ih =>
    intro kv hkv
    rw [getCachedDirectoriesWithRefresh_memory] at hkv
    rcases getCachedDirectories_memory hash enabled params _ kv hkv with h' | h'
    · exact ih kv h'
    · exact h'
  | set hash enabled writeOk now params directories _ ih =>
    intro kv hkv
    rcases setCachedDirectories_memory hash enabled writeOk now params directories _ kv hkv with h' | h'
    · exact ih kv h'
    · exact h'
  | trigger params _ ih =>
    intro kv hkv
    rw [triggerBackgroundRefresh_memory] at hkv
    exact ih kv hkv
  | fire params _ ih => exact ih
  | start now params _ ih =>
    intro kv hkv
    rw [startBackgroundRefresh_memory] at hkv
    exact ih kv hkv
  | finish key _ ih => exact ih
  | doRefresh hash outcome validPaths enabled writeOk now params _ ih =>
    intro kv hkv
    cases outcome with
    | none => exact ih kv hkv
    | some directories =>
      rcases setCachedDirectories_memory hash enabled writeOk now _ directories _ kv hkv with h' | h'
      · exact ih kv h'
      · exact h'
  | clear _ ih => intro kv hkv; simp [clearCache] at hkv
  | cleargit _ ih => exact ih
  | cleanup now _ ih => exact ih
  | preload enabled _ ih =>
    intro kv hkv
    simp only [preloadCache] at hkv
    split at hkv
    · exact ih kv hkv
    · rcases foldl_memory_version preloadFileStep preloadFileStep_memory _ _ kv hkv with h1 | h1
      · rcases foldl_memory_version preloadGlobalStep preloadGlobalStep_memory _ _ kv h1 with h2 | h2
        · exact ih kv h2
        · exact h2
      · exact h1
  | git check now dirPath _ ih =>
    intro kv hkv
    obtain ⟨g, t, hm⟩ := isGitRepository_snd check now dirPath _
    rw [hm] at hkv
    exact ih kv hkv
  | disposeStep _ ih => exact ih

theorem set_enabled_memory (hash : String → String) (writeOk : Bool) (now : Nat)
    (params : SearchParams) (directories : List DirectoryItem) (s : CacheState) :
    (setCachedDirectories hash true writeOk now params directories s).memoryCache =
      mset (getCacheKey params) ⟨directories, now, getCacheKey params, some 1⟩
        s.memoryCache := by
  simp only [setCachedDirectories, Bool.not_true, Bool.false_eq_true, if_false]
  repeat' split
  all_goals rfl

theorem set_enabled_shape (hash : String → String) (now : Nat) (params : SearchParams)
    (directories : List DirectoryItem) (s : CacheState)
    (hdis : s.fileCacheDisabled = false) :
    setCachedDirectories hash true true now params directories s =
      { s with
        memoryCache := mset (getCacheKey params)
          ⟨directories, now, getCacheKey params, some 1⟩ s.memoryCache,
        globalState :=
          if directories.length ≤ 1000 then
            mset (globalStateKey hash (getCacheKey params))
              ⟨directories, now, getCacheKey params, some 1⟩ s.globalState
          else s.globalState,
        files := mset (cacheFileName hash (getCacheKey params))
          (.entry ⟨directories, now, getCacheKey params, some 1⟩) s.files } := by
  simp only [setCachedDirectories, Bool.not_true, Bool.false_eq_true, if_false]
  split
  · rename_i hle
    simp [hdis, hle]
  · rename_i hgt
    simp [hdis, hgt]

/-- A concrete parameter tuple for witnesses. -/
def sampleParams : SearchParams := ⟨["/home/u"], ["node_modules"], [], none⟩

/-- A concrete directory item for witnesses. -/
def sampleItem : DirectoryItem := ⟨"/home/u/proj", "proj", none, .directory⟩

/-- A concrete fresh state for witnesses. -/
def sampleState : CacheState := CacheState.initial [] []

/-- C10: when caching is disabled by configuration,
`getCachedDirectories` returns `null` no matter what any tier holds
and leaves the state untouched, and `setCachedDirectories` is a no-op
on the whole state. -/
theorem c10_disabled_noop (hash : String → String) (params : SearchParams)
    (s : CacheState) (writeOk : Bool) (now : Nat)
    (directories : List DirectoryItem) :
    getCachedDirectories hash false params s = (none, s) ∧
    setCachedDirectories hash false writeOk now params directories s = s :=
  ⟨rfl, rfl⟩

/-- C1: with caching enabled, storing a non-empty `items` under
`params` and immediately looking the same `params` up returns exactly
`items`, and the entry the store created carries `version == 1`. -/
theorem c1_roundtrip (hash : String → String) (writeOk : Bool) (now : Nat)
    (params : SearchParams) (items : List DirectoryItem) (s : CacheState)
    (hne : items ≠ []) :
    (getCachedDirectories hash true params
        (setCachedDirectories hash true writeOk now params items s)).1 = some items ∧
    mget (setCachedDirectories hash true writeOk now params items s).memoryCache
        (getCacheKey params) =
      some ⟨items, now, getCacheKey params, some 1⟩ := by
  have hmem := set_enabled_memory hash writeOk now params items s
  constructor
  · simp [getCachedDirectories, hmem, mget_mset_self]
  · rw [hmem, mget_mset_self]

theorem c1_roundtrip_witness :
    ([sampleItem] ≠ ([] : List DirectoryItem)) ∧
    ((getCachedDirectories id true sampleParams
        (setCachedDirectories id true true 5 sampleParams [sampleItem] sampleState)).1 =
          some [sampleItem] ∧
      mget (setCachedDirectories id true true 5 sampleParams [sampleItem]
          sampleState).memoryCache (getCacheKey sampleParams) =
        some ⟨[sampleItem], 5, getCacheKey sampleParams, some 1⟩) :=
  ⟨by simp, c1_roundtrip id true 5 sampleParams [sampleItem] sampleState (by simp)⟩

/-- C4: with caching enabled and the file-write circuit breaker
closed, a store writes the memory tier always; the structured
(globalState) tier is left completely unchanged when
`directories.length > 1000` and receives the entry when
`directories.length <= 1000`; the file tier receives the entry. -/
theorem c4_globalstate_ceiling (hash : String → String) (now : Nat)
    (params : SearchParams) (directories : List DirectoryItem) (s : CacheState)
    (hdis : s.fileCacheDisabled = false) :
    mget (setCachedDirectories hash true true now params directories s).memoryCache
        (getCacheKey params) = some ⟨directories, now, getCacheKey params, some 1⟩ ∧
    (1000 < directories.length →
      (setCachedDirectories hash true true now params directories s).globalState =
        s.globalState) ∧
    (directories.length ≤ 1000 →
      mget (setCachedDirectories hash true true now params directories s).globalState
          (globalStateKey hash (getCacheKey params)) =
        some ⟨directories, now, getCacheKey params, some 1⟩) ∧
    mget (setCachedDirectories hash true true now params directories s).files
        (cacheFileName hash (getCacheKey params)) =
      some (.entry ⟨directories, now, getCacheKey params, some 1⟩) := by
  rw [set_enabled_shape hash now params directories s hdis]
  refine ⟨mget_mset_self _ _ _, ?_, ?_, mget_mset_self _ _ _⟩
  · intro hgt
    have : ¬ directories.length ≤ 1000 := by omega
    simp [this]
  · intro hle
    simp [hle, mget_mset_self]

theorem c4_globalstate_ceiling_witness :
    sampleState.fileCacheDisabled = false ∧
    (mget (setCachedDirectories id true true 5 sampleParams [sampleItem]
        sampleState).memoryCache (getCacheKey sampleParams) =
      some ⟨[sampleItem], 5, getCacheKey sampleParams, some 1⟩ ∧
    (1000 < ([sampleItem] : List DirectoryItem).length →
      (setCachedDirectories id true true 5 sampleParams [sampleItem]
        sampleState).globalState = sampleState.globalState) ∧
    (([sampleItem] : List DirectoryItem).length ≤ 1000 →
      mget (setCachedDirectories id true true 5 sampleParams [sampleItem]
          sampleState).globalState (globalStateKey id (getCacheKey sampleParams)) =
        some ⟨[sampleItem], 5, getCacheKey sampleParams, some 1⟩) ∧
    mget (setCachedDirectories id true true 5 sampleParams [sampleItem]
        sampleState).files (cacheFileName id (getCacheKey sampleParams)) =
      some (.entry ⟨[sampleItem], 5, getCacheKey sampleParams, some 1⟩)) :=
  ⟨rfl, c4_globalstate_ceiling id 5 sampleParams [sampleItem] sampleState rfl⟩

/-- C3: `shouldRefreshInBackground` returns false while a refresh for
the key is in flight; false when fewer than 10 000 ms have elapsed
since the recorded last refresh attempt; and true otherwise (an absent
record is stored as time 0, so with any realistic clock value
`now ≥ 10000` the no-record case answers true). -/
theorem c3_should_refresh (now : Nat) (params : SearchParams) (s : CacheState)
    (hnow : 10000 ≤ now) :
    (getCacheKey params ∈ s.backgroundRefreshes →
      shouldRefreshInBackground now params s = false) ∧
    (∀ t, mget s.lastRefreshTimes (getCacheKey params) = some t →
      now - t < 10000 → shouldRefreshInBackground now params s = false) ∧
    (getCacheKey params ∉ s.backgroundRefreshes →
      (∀ t, mget s.lastRefreshTimes (getCacheKey params) = some t → 10000 ≤ now - t) →
      shouldRefreshInBackground now params s = true) := by
  refine ⟨?_, ?_, ?_⟩
  · intro hin
    simp [shouldRefreshInBackground, hin]
  · intro t ht hlt
    simp only [shouldRefreshInBackground]
    split
    · rfl
    · rw [ht]
      simp [hlt]
  · intro hnin hrec
    simp only [shouldRefreshInBackground]
    rw [if_neg hnin]
    cases hmt : mget s.lastRefreshTimes (getCacheKey params) with
    | none =>
      simp
      omega
    | some t =>
      have := hrec t hmt
      simp
      omega

theorem c3_should_refresh_witness :
    10000 ≤ 20000 ∧
    ((getCacheKey sampleParams ∈ sampleState.backgroundRefreshes →
      shouldRefreshInBackground 20000 sampleParams sampleState = false) ∧
    (∀ t, mget sampleState.lastRefreshTimes (getCacheKey sampleParams) = some t →
      20000 - t < 10000 → shouldRefreshInBackground 20000 sampleParams sampleState = false) ∧
    (getCacheKey sampleParams ∉ sampleState.backgroundRefreshes →
      (∀ t, mget sampleState.lastRefreshTimes (getCacheKey sampleParams) = some t →
        10000 ≤ 20000 - t) →
      shouldRefreshInBackground 20000 sampleParams sampleState = true)) :=
  ⟨by omega, c3_should_refresh 20000 sampleParams sampleState (by omega)⟩

/-- C6: a failed background refresh (any error, unavailable tool, or
the 30 s timeout — outcome `none`) leaves every cache tier exactly as
it was: memory, structured tier, file tier and the circuit breaker are
unchanged after the full refresh lifecycle, and the refresh body
itself swallows the error and returns the state unchanged (no error
reaches any caller). -/
theorem c6_refresh_failure_atomic (hash : String → String)
    (validPaths : List String) (enabled writeOk : Bool) (now₁ now₂ : Nat)
    (params : SearchParams) (s : CacheState) :
    ((performBackgroundRefresh hash none validPaths enabled writeOk now₁ now₂ params s).memoryCache
        = s.memoryCache ∧
     (performBackgroundRefresh hash none validPaths enabled writeOk now₁ now₂ params s).globalState
        = s.globalState ∧
     (performBackgroundRefresh hash none validPaths enabled writeOk now₁ now₂ params s).files
        = s.files ∧
     (performBackgroundRefresh hash none validPaths enabled writeOk now₁ now₂ params s).fileCacheDisabled
        = s.fileCacheDisabled) ∧
    doBackgroundRefresh hash none validPaths enabled writeOk now₂ params s = s := by
  constructor
  · by_cases hin : getCacheKey params ∈ s.backgroundRefreshes
    · simp [performBackgroundRefresh, startBackgroundRefresh, hin]
    · simp [performBackgroundRefresh, startBackgroundRefresh, hin,
        doBackgroundRefresh, doBackgroundRefreshBody, finishBackgroundRefresh]
  · rfl

/-- C2: at every reachable state there is at most one in-flight
background refresh per cache key (the marker list never holds
duplicates); calling `performBackgroundRefresh`'s guarded head while a
refresh for the same key is in flight is a complete no-op; the marker
is removed by the `finally` handler regardless of outcome, so a full
refresh lifecycle started on a key with no in-flight marker restores
the marker set exactly. -/
theorem c2_single_flight {s : CacheState} (hs : Reach s) :
    s.backgroundRefreshes.Nodup ∧
    (∀ now params, getCacheKey params ∈ s.backgroundRefreshes →
      startBackgroundRefresh now params s = (false, s)) ∧
    (∀ key, key ∉ (finishBackgroundRefresh key s).backgroundRefreshes) ∧
    (∀ hash outcome validPaths enabled writeOk now₁ now₂ params,
      getCacheKey params ∉ s.backgroundRefreshes →
      (performBackgroundRefresh hash outcome validPaths enabled writeOk now₁ now₂
          params s).backgroundRefreshes = s.backgroundRefreshes) := by
  refine ⟨reach_nodup hs, ?_, ?_, ?_⟩
  · intro now params hin
    simp [startBackgroundRefresh, hin]
  · intro key
    simp [finishBackgroundRefresh, List.mem_filter]
  · intro hash outcome validPaths enabled writeOk now₁ now₂ params hnin
    obtain ⟨m, g, f, d, hdo⟩ := doBackgroundRefresh_shape hash outcome validPaths
      enabled writeOk now₂ params
        { s with
          lastRefreshTimes := mset (getCacheKey params) now₁ s.lastRefreshTimes,
          backgroundRefreshes := getCacheKey params :: s.backgroundRefreshes }
    simp only [performBackgroundRefresh, startBackgroundRefresh, if_neg hnin]
    simp only [finishBackgroundRefresh, hdo]
    rw [List.filter_cons]
    simp only [bne_self_eq_false, Bool.false_eq_true, if_false]
    exact List.filter_eq_self.mpr fun a ha =>
      bne_iff_ne.mpr fun heq => hnin (heq ▸ ha)

theorem c2_single_flight_witness :
    (startBackgroundRefresh 0 sampleParams sampleState).2.backgroundRefreshes.Nodup ∧
    startBackgroundRefresh 1 sampleParams
        (startBackgroundRefresh 0 sampleParams sampleState).2 =
      (false, (startBackgroundRefresh 0 sampleParams sampleState).2) ∧
    getCacheKey sampleParams ∉
      (finishBackgroundRefresh (getCacheKey sampleParams)
        (startBackgroundRefresh 0 sampleParams sampleState).2).backgroundRefreshes ∧
    (performBackgroundRefresh id none [] true true 0 1 sampleParams
        sampleState).backgroundRefreshes = sampleState.backgroundRefreshes := by
  have h1 := c2_single_flight (Reach.start 0 sampleParams (Reach.init [] []))
  have h0 := c2_single_flight (Reach.init [] [])
  have hin : getCacheKey sampleParams ∈
      (startBackgroundRefresh 0 sampleParams sampleState).2.backgroundRefreshes := by
    simp [startBackgroundRefresh, sampleState, CacheState.initial]
  exact ⟨h1.1, h1.2.1 1 sampleParams hin,
    h1.2.2.1 (getCacheKey sampleParams),
    h0.2.2.2 id none [] true true 0 1 sampleParams (by
      simp [sampleState, CacheState.initial])⟩

/-- A version-1 entry stored under the canonical filename, for witnesses. -/
def sampleEntry : CacheEntry := ⟨[sampleItem], 0, getCacheKey sampleParams, some 1⟩

/-- A fresh state whose file tier holds `sampleEntry`, for witnesses. -/
def sampleFileState : CacheState :=
  CacheState.initial []
    [(cacheFileName id (getCacheKey sampleParams), .entry sampleEntry)]

/-- C5: on any reachable state, a lookup that returns data always
returns the `directories` of an entry with `version == 1` found in the
memory or file tier (entries of any other version are never returned),
and the cleanup pass deletes every `.json` file whose parsed entry has
a version other than 1 (missing version included). -/
theorem c5_version_guard {s : CacheState} (hs : Reach s) (hash : String → String)
    (enabled : Bool) (params : SearchParams) :
    (∀ ds s', getCachedDirectories hash enabled params s = (some ds, s') →
      ∃ e : CacheEntry, e.version = some 1 ∧ ds = e.directories ∧
        ((getCacheKey params, e) ∈ s.memoryCache ∨
          mget s.files (cacheFileName hash (getCacheKey params)) =
            some (.entry e))) ∧
    (∀ now name e, (name, FileContent.entry e) ∈ (cleanupOldCacheFiles now s).files →
      name.endsWith ".json" = true → e.version = some 1) := by
  constructor
  · intro ds s' hget
    simp only [getCachedDirectories] at hget
    split at hget
    · exact absurd (congrArg Prod.fst hget) (by simp)
    · split at hget
      · rename_i e hmem
        injection hget with hfst _
        injection hfst with hds
        exact ⟨e, reach_memory_version hs _ (mget_mem hmem), hds.symm, Or.inl (mget_mem hmem)⟩
      · split at hget
        · rename_i diskEntry hfile
          split at hget
          · rename_i hv
            injection hget with hfst _
            injection hfst with hds
            exact ⟨diskEntry, hv, hds.symm, Or.inr hfile⟩
          · exact absurd (congrArg Prod.fst hget) (by simp)
        · exact absurd (congrArg Prod.fst hget) (by simp)
  · intro now name e hmem hend
    have hkeep := (List.mem_filter.mp hmem).2
    simp only [keepFile, hend, if_true] at hkeep
    split at hkeep
    · exact absurd hkeep (by simp)
    · rename_i hcond
      push_neg at hcond
      exact hcond.2

theorem c5_version_guard_witness :
    (∀ ds s', getCachedDirectories id true sampleParams sampleFileState = (some ds, s') →
      ∃ e : CacheEntry, e.version = some 1 ∧ ds = e.directories ∧
        ((getCacheKey sampleParams, e) ∈ sampleFileState.memoryCache ∨
          mget sampleFileState.files (cacheFileName id (getCacheKey sampleParams)) =
            some (.entry e))) ∧
    (∀ now name e,
      (name, FileContent.entry e) ∈ (cleanupOldCacheFiles now sampleFileState).files →
      name.endsWith ".json" = true → e.version = some 1) :=
  c5_version_guard
    (Reach.init [] [(cacheFileName id (getCacheKey sampleParams), .entry sampleEntry)])
    id true sampleParams

/-- C7: the user-facing clear operation empties the memory tier,
removes exactly the structured-tier keys carrying the
`rip-scope-cache-` tag, deletes exactly the `.json` files of the cache
directory, clears the git-repository cache, and reports the memory
size taken immediately before clearing. -/
theorem c7_clear_everything (s : CacheState) :
    (clearCommand s).1 = s.memoryCache.length ∧
    (clearCommand s).2.memoryCache = [] ∧
    (∀ kv : String × CacheEntry, kv ∈ (clearCommand s).2.globalState ↔
      (kv ∈ s.globalState ∧ kv.1.startsWith "rip-scope-cache-" = false)) ∧
    (∀ kv : String × FileContent, kv ∈ (clearCommand s).2.files ↔
      (kv ∈ s.files ∧ kv.1.endsWith ".json" = false)) ∧
    (clearCommand s).2.gitRepoCache = [] := by
  refine ⟨rfl, rfl, ?_, ?_, rfl⟩
  · intro kv
    simp [clearCommand, clearCache, clearGitCache, List.mem_filter]
  · intro kv
    simp [clearCommand, clearCache, clearGitCache, List.mem_filter]

/-- C8: key derivation is deterministic and order-sensitive — two
parameter tuples produce the same cache key exactly when their
`searchPath`, `excludePatterns` and `additionalRipgrepArgs` sequences
are element-wise equal in the same order; in particular reordering any
of the arrays changes the key. -/
theorem c8_key_deterministic_order_sensitive (p1 p2 : SearchParams) :
    getCacheKey p1 = getCacheKey p2 ↔
      (p1.searchPath = p2.searchPath ∧ p1.excludePatterns = p2.excludePatterns ∧
        p1.additionalRipgrepArgs = p2.additionalRipgrepArgs) := by
  constructor
  · exact getCacheKey_fields_eq
  · rintro ⟨h1, h2, h3⟩
    simp [getCacheKey, h1, h2, h3]

/-- C9: `isGitRepository` never throws; on a cache miss where the
filesystem check answers `false` or throws, it returns `false` and
caches `false` under the path, and any second call for the same path
within the 5-minute shared expiry window returns the cached `false`
without consulting the filesystem and without changing the state. -/
theorem c9_git_negative_cached (check check₂ : String → Option Bool)
    (now₁ now₂ : Nat) (dirPath : String) (s : CacheState)
    (hmiss : mget s.gitRepoCache dirPath = none)
    (hfail : check dirPath = some false ∨ check dirPath = none) :
    (isGitRepository check now₁ dirPath s).1 = false ∧
    mget (isGitRepository check now₁ dirPath s).2.2.gitRepoCache dirPath = some false ∧
    (now₂ - (isGitRepository check now₁ dirPath s).2.2.gitCacheTimestamp ≤ 5 * 60 * 1000 →
      isGitRepository check₂ now₂ dirPath (isGitRepository check now₁ dirPath s).2.2 =
        (false, false, (isGitRepository check now₁ dirPath s).2.2)) := by
  have hchk : ∀ s1 : CacheState, mget s1.gitRepoCache dirPath = none →
      (match mget s1.gitRepoCache dirPath with
        | some b => (b, false, s1)
        | none =>
          match check dirPath with
          | some b => (b, true, { s1 with gitRepoCache := mset dirPath b s1.gitRepoCache })
          | none => (false, true, { s1 with gitRepoCache := mset dirPath false s1.gitRepoCache })) =
        (false, true, { s1 with gitRepoCache := mset dirPath false s1.gitRepoCache }) := by
    intro s1 h1
    rw [h1]
    rcases hfail with hf | hf <;> rw [hf]
  set s1 : CacheState :=
    if 5 * 60 * 1000 < now₁ - s.gitCacheTimestamp then
      { s with gitRepoCache := [], gitCacheTimestamp := now₁ }
    else s with hs1
  have hmiss1 : mget s1.gitRepoCache dirPath = none := by
    rw [hs1]
    by_cases hexp : 5 * 60 * 1000 < now₁ - s.gitCacheTimestamp
    · rw [if_pos hexp]
      rfl
    · rw [if_neg hexp]
      exact hmiss
  have hfirst : isGitRepository check now₁ dirPath s =
      (false, true, { s1 with gitRepoCache := mset dirPath false s1.gitRepoCache }) := by
    simp only [isGitRepository, ← hs1]
    exact hchk s1 hmiss1
  refine ⟨by rw [hfirst], by rw [hfirst]; exact mget_mset_self _ _ _, ?_⟩
  intro hwin
  rw [hfirst] at hwin ⊢
  dsimp only at hwin ⊢
  simp only [isGitRepository]
  rw [if_neg (by omega), mget_mset_self]

theorem c9_git_negative_cached_witness :
    mget sampleState.gitRepoCache "/nope" = none ∧
    (((fun _ => (none : Option Bool)) "/nope" = some false) ∨
      ((fun _ => (none : Option Bool)) "/nope" = none)) ∧
    ((isGitRepository (fun _ => none) 7 "/nope" sampleState).1 = false ∧
    mget (isGitRepository (fun _ => none) 7 "/nope" sampleState).2.2.gitRepoCache "/nope" =
      some false ∧
    (9 - (isGitRepository (fun _ => none) 7 "/nope" sampleState).2.2.gitCacheTimestamp ≤
        5 * 60 * 1000 →
      isGitRepository (fun _ => none) 9 "/nope"
          (isGitRepository (fun _ => none) 7 "/nope" sampleState).2.2 =
        (false, false, (isGitRepository (fun _ => none) 7 "/nope" sampleState).2.2))) :=
  ⟨rfl, Or.inr rfl,
    c9_git_negative_cached (fun _ => none) (fun _ => none) 7 9 "/nope" sampleState
      rfl (Or.inr rfl)⟩
